import Mathlib

/-!
Shallow embedding of the schwab-0dte-analyzer derived-metrics pipeline:
max-pain calculation (server/routes/schwab.ts), naked-position anomaly
detection and collector lifecycle (server/services/data-collector.ts),
credit-spread enumeration (CreditSpreadAnalyzer), and ATM selection with
the order-flow heuristic (server/services/atm-trade-analyzer.ts).
Prices, strikes and ratios are modelled as rationals; volume and open
interest as naturals, matching the data model (non-negative integers).
-/

/-- Option side, the `putCall` field of a contract. -/
inductive PutCall where
  | CALL
  | PUT
deriving DecidableEq, Repr

open PutCall

/-- The fields of an option contract used by the analytics under
verification (from the `OptionContract` type in server/types/schwab.ts). -/
structure OptionContract where
  putCall : PutCall
  strikePrice : ℚ
  bid : ℚ
  ask : ℚ
  totalVolume : ℕ
  openInterest : ℕ
  delta : ℚ
deriving DecidableEq, Repr

/-! ### Max pain (calculateMaxPain in server/routes/schwab.ts)

The source accumulates call/put open interest per strike in a JavaScript
`Map`, whose iteration order is key-insertion order.  We model the map as
an association list in insertion order: inserting an existing strike
updates it in place, a new strike is appended. -/

/-- One entry of the strike map: aggregated call and put open interest. -/
structure StrikeEntry where
  strike : ℚ
  callOI : ℚ
  putOI : ℚ
deriving DecidableEq, Repr

/-- `strikeMap.get(strike) || {0,0}; callOI += oi; set` preserving
insertion order. -/
def addCallOI : List StrikeEntry → ℚ → ℚ → List StrikeEntry
  | [], strike, oi => [⟨strike, oi, 0⟩]
  | e :: rest, strike, oi =>
    if e.strike = strike then ⟨e.strike, e.callOI + oi, e.putOI⟩ :: rest
    else e :: addCallOI rest strike oi

/-- `strikeMap.get(strike) || {0,0}; putOI += oi; set` preserving
insertion order. -/
def addPutOI : List StrikeEntry → ℚ → ℚ → List StrikeEntry
  | [], strike, oi => [⟨strike, 0, oi⟩]
  | e :: rest, strike, oi =>
    if e.strike = strike then ⟨e.strike, e.callOI, e.putOI + oi⟩ :: rest
    else e :: addPutOI rest strike oi

/-- The two aggregation loops of `calculateMaxPain`: calls first, then
puts, into one strike map. -/
def buildStrikeMap (calls puts : List OptionContract) : List StrikeEntry :=
  let m := calls.foldl (fun m c => addCallOI m c.strikePrice (c.openInterest : ℚ)) []
  puts.foldl (fun m p => addPutOI m p.strikePrice (p.openInterest : ℚ)) m

/-- Contribution of one strike-map entry to the pain at settlement
strike `S` (the body of the inner loop of `calculateMaxPain`). -/
def painContrib (S : ℚ) (e : StrikeEntry) : ℚ :=
  (if e.strike < S then e.callOI * (S - e.strike) * 100 else 0) +
  (if S < e.strike then e.putOI * (e.strike - S) * 100 else 0)

/-- Total pain if price settles at strike `S`: the inner loop of
`calculateMaxPain` over the whole strike map. -/
def painAt (m : List StrikeEntry) (S : ℚ) : ℚ :=
  (m.map (painContrib S)).sum

/-- The selection loop of `calculateMaxPain`: running best strike and
minimal pain (`none` models the initial `Infinity`), updated on strict
improvement (`pain < minPain`). -/
def mpGo (painOf : ℚ → ℚ) : List StrikeEntry → ℚ → Option ℚ → ℚ
  | [], best, _ => best
  | e :: rest, _, none => mpGo painOf rest e.strike (some (painOf e.strike))
  | e :: rest, best, some mp =>
    if painOf e.strike < mp then mpGo painOf rest e.strike (some (painOf e.strike))
    else mpGo painOf rest best (some mp)

/-- `calculateMaxPain(calls, puts)` from server/routes/schwab.ts. -/
def calculateMaxPain (calls puts : List OptionContract) : ℚ :=
  let m := buildStrikeMap calls puts
  mpGo (painAt m) m 0 none

/-- Convenience: a contract with only side, strike and open interest set
(the fields `calculateMaxPain` reads). -/
def oiContract (side : PutCall) (strike : ℚ) (oi : ℕ) : OptionContract :=
  ⟨side, strike, 0, 0, 0, oi, 0⟩

/-- The calls of the end-to-end max-pain scenario: strikes
[640, 645, 650] with open interest [100, 50, 30]. -/
def exCalls : List OptionContract :=
  [oiContract CALL 640 100, oiContract CALL 645 50, oiContract CALL 650 30]

/-- The puts of the end-to-end max-pain scenario: strikes
[640, 645, 650] with open interest [40, 60, 90]. -/
def exPuts : List OptionContract :=
  [oiContract PUT 640 40, oiContract PUT 645 60, oiContract PUT 650 90]

/-! ### Naked-position detection
(DataCollector.checkNakedPosition in server/services/data-collector.ts) -/

/-- Default `NAKED_POSITION_THRESHOLD` (1.5). -/
def NAKED_THRESHOLD : ℚ := 3 / 2

/-- The record handed to `storeNakedPosition` (the fields relevant to the
claims). -/
structure NakedPositionEvent where
  strikePrice : ℚ
  volume : ℕ
  openInterest : ℕ
  volumeOiRatio : ℚ
  thresholdMultiplier : ℚ
deriving DecidableEq, Repr

/-- `DataCollector.checkNakedPosition`: skip when volume or open interest
is zero; otherwise emit an event iff `volume > openInterest * threshold`,
carrying the ratio and the threshold in effect.  The threshold is the
module-level `NAKED_THRESHOLD` constant, passed here as a parameter. -/
def checkNakedPosition (threshold : ℚ) (contract : OptionContract) :
    Option NakedPositionEvent :=
  let volume := contract.totalVolume
  let openInterest := contract.openInterest
  if volume = 0 ∨ openInterest = 0 then none
  else
    let volumeOiRatio : ℚ := (volume : ℚ) / (openInterest : ℚ)
    if (volume : ℚ) > (openInterest : ℚ) * threshold then
      some ⟨contract.strikePrice, volume, openInterest, volumeOiRatio, threshold⟩
    else none

/-! ### Credit-spread enumeration
(CreditSpreadAnalyzer.calculateCreditSpreads) -/

/-- Minimum credit: $0.50. -/
def MIN_CREDIT : ℚ := 1 / 2

/-- Maximum strike width: $50. -/
def MAX_WIDTH : ℚ := 50

/-- Minimum strike width: $5. -/
def MIN_WIDTH : ℚ := 5

/-- The `SpreadOpportunity` interface of the analyzer. -/
structure SpreadOpportunity where
  spreadType : PutCall
  shortStrike : ℚ
  longStrike : ℚ
  shortOption : OptionContract
  longOption : OptionContract
  creditReceived : ℚ
  maxProfit : ℚ
  maxLoss : ℚ
  breakEven : ℚ
  riskRewardRatio : ℚ
  probabilityOfProfit : ℚ
  deltaSpread : ℚ
  width : ℚ
deriving DecidableEq, Repr

/-- Ascending order on contracts by strike price
(`(a, b) => a.strikePrice - b.strikePrice`). -/
def strikeLE (a b : OptionContract) : Prop :=
  a.strikePrice ≤ b.strikePrice

instance : DecidableRel strikeLE := fun a b =>
  inferInstanceAs (Decidable (a.strikePrice ≤ b.strikePrice))

instance : IsTotal OptionContract strikeLE :=
  ⟨fun a b => le_total a.strikePrice b.strikePrice⟩

instance : IsTrans OptionContract strikeLE :=
  ⟨fun _ _ _ h h2 => le_trans h h2⟩

/-- Descending order on spreads by risk/reward ratio
(`(a, b) => b.riskRewardRatio - a.riskRewardRatio`). -/
def rrGE (a b : SpreadOpportunity) : Prop :=
  b.riskRewardRatio ≤ a.riskRewardRatio

instance : DecidableRel rrGE := fun a b =>
  inferInstanceAs (Decidable (b.riskRewardRatio ≤ a.riskRewardRatio))

instance : IsTotal SpreadOpportunity rrGE :=
  ⟨fun a b => le_total b.riskRewardRatio a.riskRewardRatio⟩

instance : IsTrans SpreadOpportunity rrGE :=
  ⟨fun _ _ _ h h2 => le_trans h2 h⟩

/-- All pairs `(l[i], l[j])` with `i < j`, in the order of the double
loop `for i ...: for j = i+1 ...`. -/
def loopPairs : List OptionContract → List (OptionContract × OptionContract)
  | [] => []
  | x :: xs => xs.map (fun y => (x, y)) ++ loopPairs xs

/-- The body of the double loop of `calculateCreditSpreads`: given the
pair `(opt1, opt2)` with `opt1` at the lower index of the strike-sorted
list, build the spread or skip it (width bounds, minimum credit). -/
def mkSpread (optionType : PutCall) (p : OptionContract × OptionContract) :
    Option SpreadOpportunity :=
  let opt1 := p.1
  let opt2 := p.2
  let shortOption := if optionType = CALL then opt1 else opt2
  let longOption := if optionType = CALL then opt2 else opt1
  let width := |shortOption.strikePrice - longOption.strikePrice|
  if width < MIN_WIDTH ∨ width > MAX_WIDTH then none
  else
    let creditReceived := shortOption.bid - longOption.ask
    if creditReceived < MIN_CREDIT then none
    else
      let maxProfit := creditReceived * 100
      let maxLoss := (width - creditReceived) * 100
      let breakEven := if optionType = CALL then
          shortOption.strikePrice + creditReceived
        else shortOption.strikePrice - creditReceived
      let riskRewardRatio := if maxLoss > 0 then maxProfit / maxLoss else 0
      let probabilityOfProfit := if optionType = CALL then
          (1 - |shortOption.delta|) * 100
        else |shortOption.delta| * 100
      let deltaSpread := |shortOption.delta - longOption.delta|
      some ⟨optionType, shortOption.strikePrice, longOption.strikePrice,
        shortOption, longOption, creditReceived, maxProfit, maxLoss, breakEven,
        riskRewardRatio, probabilityOfProfit, deltaSpread, width⟩

/-- `CreditSpreadAnalyzer.calculateCreditSpreads`: filter to the side,
sort ascending by strike, enumerate all index pairs `i < j`, keep the
pairs passing the width and credit checks, and sort the surviving
spreads descending by risk/reward ratio. -/
def calculateCreditSpreads (options : List OptionContract)
    (optionType : PutCall) (_underlyingPrice : ℚ) : List SpreadOpportunity :=
  let filteredOptions :=
    List.insertionSort strikeLE (options.filter (fun o => o.putCall = optionType))
  let spreads := (loopPairs filteredOptions).filterMap (mkSpread optionType)
  List.insertionSort rrGE spreads

/-! ### ATM selection and order flow
(ATMTradeAnalyzer in server/services/atm-trade-analyzer.ts) -/

/-- 2% from current price is considered ATM. -/
def ATM_THRESHOLD : ℚ := 2 / 100

/-- The `ATMOption` record built by `findATMOptions`. -/
structure ATMOption where
  optionType : PutCall
  contract : OptionContract
  distanceFromATM : ℚ
  isATM : Bool
deriving DecidableEq, Repr

/-- Ascending order on ATM options by distance from the underlying price
(`(a, b) => a.distanceFromATM - b.distanceFromATM`). -/
def distLE (a b : ATMOption) : Prop :=
  a.distanceFromATM ≤ b.distanceFromATM

instance : DecidableRel distLE := fun a b =>
  inferInstanceAs (Decidable (a.distanceFromATM ≤ b.distanceFromATM))

instance : IsTotal ATMOption distLE :=
  ⟨fun a b => le_total a.distanceFromATM b.distanceFromATM⟩

instance : IsTrans ATMOption distLE :=
  ⟨fun _ _ _ h h2 => le_trans h h2⟩

/-- The inner `findNearestStrikes` closure of
`ATMTradeAnalyzer.findATMOptions`: filter to the side, compute distance
and the within-2% flag, keep the in-range contracts, sort ascending by
distance, take the top 3. -/
def findNearestStrikes (options : List OptionContract) (optionType : PutCall)
    (underlyingPrice : ℚ) : List ATMOption :=
  ((List.insertionSort distLE
    (((options.filter (fun o => o.putCall = optionType)).map (fun contract =>
        let distance := |contract.strikePrice - underlyingPrice|
        let percentDistance := distance / underlyingPrice
        ATMOption.mk optionType contract distance
          (decide (percentDistance ≤ ATM_THRESHOLD)))).filter
      (fun o => o.isATM)))).take 3

/-- `ATMTradeAnalyzer.findATMOptions`: nearest in-range strikes per side. -/
def findATMOptions (calls puts : List OptionContract) (underlyingPrice : ℚ) :
    List ATMOption × List ATMOption :=
  (findNearestStrikes calls CALL underlyingPrice,
   findNearestStrikes puts PUT underlyingPrice)

/-- Order-flow classification. -/
inductive OrderFlowSignal where
  | BULLISH
  | BEARISH
  | NEUTRAL
deriving DecidableEq, Repr

open OrderFlowSignal

/-- Result of `ATMTradeAnalyzer.analyzeOrderFlow`. -/
structure OrderFlowResult where
  hasUnusualVolume : Bool
  volumeOIRatio : ℚ
  signal : OrderFlowSignal
deriving DecidableEq, Repr

/-- `ATMTradeAnalyzer.analyzeOrderFlow`: guarded volume/open-interest
ratio (0 when open interest is 0), unusual-volume flag at ratio > 0.5,
and a directional signal only under unusual volume with a tight spread
(`bid > ask * 0.9`). -/
def analyzeOrderFlow (option : ATMOption) : OrderFlowResult :=
  let volume := option.contract.totalVolume
  let openInterest := option.contract.openInterest
  let volumeOIRatio : ℚ :=
    if 0 < openInterest then (volume : ℚ) / (openInterest : ℚ) else 0
  let hasUnusualVolume := volumeOIRatio > 1 / 2
  let signal :=
    if hasUnusualVolume then
      if option.optionType = CALL ∧
          option.contract.bid > option.contract.ask * (9 / 10) then BULLISH
      else if option.optionType = PUT ∧
          option.contract.bid > option.contract.ask * (9 / 10) then BEARISH
      else NEUTRAL
    else NEUTRAL
  ⟨decide hasUnusualVolume, volumeOIRatio, signal⟩

/-! ### Collector lifecycle (DataCollector.start / DataCollector.stop)

The mutable fields `intervalId` and `isRunning` of the `DataCollector`
class are modelled as an explicit state; the runtime's set of armed
interval timers is carried alongside, with `setInterval` arming a fresh
timer handle and `clearInterval` disarming the held one. -/

/-- Collector state: the class fields plus the runtime's armed timers. -/
structure CollectorState where
  intervalId : Option ℕ
  isRunning : Bool
  activeTimers : List ℕ
deriving DecidableEq, Repr

/-- The state of a freshly constructed `DataCollector`. -/
def CollectorState.initial : CollectorState :=
  ⟨none, false, []⟩

/-- `DataCollector.start`: no-op while running, otherwise arm a fresh
interval timer (`fresh` models the handle returned by `setInterval`) and
set the running flag. -/
def DataCollector.start (s : CollectorState) (fresh : ℕ) : CollectorState :=
  if s.isRunning then s
  else ⟨some fresh, true, s.activeTimers ++ [fresh]⟩

/-- `DataCollector.stop`: no-op unless running with a held timer handle,
otherwise `clearInterval` the held timer and clear the flags. -/
def DataCollector.stop (s : CollectorState) : CollectorState :=
  if s.isRunning = false ∨ s.intervalId = none then s
  else
    ⟨none, false,
      match s.intervalId with
      | some t => s.activeTimers.erase t
      | none => s.activeTimers⟩

/-- The collector state invariant: the running flag is set exactly when
an interval timer handle is held. -/
def CollectorInv (s : CollectorState) : Prop :=
  s.isRunning = true ↔ s.intervalId ≠ none

/-! ### Lemmas about the max-pain selection loop -/

/-- From an armed accumulator, the selection loop returns either the
incumbent or a strike of the remaining list, its pain never exceeds the
incumbent minimum, and its pain is minimal over the remaining list. -/
lemma mpGo_spec (f : ℚ → ℚ) (l : List StrikeEntry) :
    ∀ (b : ℚ) (mp : ℚ), f b = mp →
      (mpGo f l b (some mp) = b ∨ ∃ e ∈ l, mpGo f l b (some mp) = e.strike) ∧
      f (mpGo f l b (some mp)) ≤ mp ∧
      ∀ e ∈ l, f (mpGo f l b (some mp)) ≤ f e.strike := by
  induction l with
  | nil =>
    intro b mp h
    exact ⟨Or.inl rfl, le_of_eq h, by intro e he; simp at he⟩
  | cons e rest ih =>
    intro b mp h
    by_cases hc : f e.strike < mp
    · simp only [mpGo, if_pos hc]
      obtain ⟨hmem, hle, hall⟩ := ih e.strike (f e.strike) rfl
      refine ⟨?_, le_trans hle (le_of_lt hc), ?_⟩
      · rcases hmem with h1 | ⟨e2, he2, h2⟩
        · exact Or.inr ⟨e, List.mem_cons_self e rest, h1⟩
        · exact Or.inr ⟨e2, List.mem_cons_of_mem e he2, h2⟩
      · intro e2 he2
        rcases List.mem_cons.mp he2 with rfl | hm
        · exact hle
        · exact hall e2 hm
    · simp only [mpGo, if_neg hc]
      obtain ⟨hmem, hle, hall⟩ := ih b mp h
      refine ⟨?_, hle, ?_⟩
      · rcases hmem with h1 | ⟨e2, he2, h2⟩
        · exact Or.inl h1
        · exact Or.inr ⟨e2, List.mem_cons_of_mem e he2, h2⟩
      · intro e2 he2
        rcases List.mem_cons.mp he2 with rfl | hm
        · exact le_trans hle (not_lt.mp hc)
        · exact hall e2 hm

/-- If nothing in the remaining list strictly improves on the incumbent
minimum, the selection loop keeps the incumbent strike. -/
lemma mpGo_of_no_improvement (f : ℚ → ℚ) (l : List StrikeEntry) :
    ∀ (b : ℚ) (mp : ℚ), (∀ e ∈ l, mp ≤ f e.strike) →
      mpGo f l b (some mp) = b := by
  induction l with
  | nil => intro b mp _; simp [mpGo]
  | cons e rest ih =>
    intro b mp hall
    have hc : ¬ f e.strike < mp :=
      not_lt.mpr (hall e (List.mem_cons_self e rest))
    simp only [mpGo, if_neg hc]
    exact ih b mp fun x hx => hall x (List.mem_cons_of_mem e hx)

/-- If `e` strictly improves on the incumbent minimum, every entry
before `e` has strictly larger pain than `e`, and nothing after `e`
beats it, then the selection loop ends at `e.strike`. -/
lemma mpGo_first_improver (f : ℚ → ℚ) (l1 : List StrikeEntry) :
    ∀ (e : StrikeEntry) (l2 : List StrikeEntry) (b : ℚ) (mp : ℚ),
      f e.strike < mp →
      (∀ x ∈ l1, f e.strike < f x.strike) →
      (∀ x ∈ l2, f e.strike ≤ f x.strike) →
      mpGo f (l1 ++ e :: l2) b (some mp) = e.strike := by
  induction l1 with
  | nil =>
    intro e l2 b mp hlt _ h2
    simp only [List.nil_append, mpGo, if_pos hlt]
    exact mpGo_of_no_improvement f l2 e.strike (f e.strike) h2
  | cons a l1 ih =>
    intro e l2 b mp hlt h1 h2
    by_cases hc : f a.strike < mp
    · simp only [List.cons_append, mpGo, if_pos hc]
      exact ih e l2 a.strike (f a.strike)
        (h1 a (List.mem_cons_self a l1))
        (fun x hx => h1 x (List.mem_cons_of_mem a hx)) h2
    · simp only [List.cons_append, mpGo, if_neg hc]
      exact ih e l2 b mp hlt
        (fun x hx => h1 x (List.mem_cons_of_mem a hx)) h2

/-- Every nonempty list has a first entry attaining the minimal pain:
a decomposition whose middle entry is minimal overall and strictly
beaten by nothing before it. -/
lemma exists_first_minimizer (f : ℚ → ℚ) (l : List StrikeEntry) (h : l ≠ []) :
    ∃ l1 e l2, l = l1 ++ e :: l2 ∧
      (∀ x ∈ l, f e.strike ≤ f x.strike) ∧
      (∀ x ∈ l1, f e.strike < f x.strike) := by
  induction l with
  | nil => exact absurd rfl h
  | cons a rest ih =>
    rcases eq_or_ne rest [] with hrest | hrest
    · subst hrest
      refine ⟨[], a, [], rfl, ?_, by simp⟩
      intro x hx
      rcases List.mem_singleton.mp hx with rfl
      exact le_refl _
    · obtain ⟨l1, e, l2, heq, hmin, hstrict⟩ := ih hrest
      by_cases hae : f a.strike ≤ f e.strike
      · refine ⟨[], a, rest, rfl, ?_, by simp⟩
        intro x hx
        rcases List.mem_cons.mp hx with rfl | hm
        · exact le_refl _
        · exact le_trans hae (hmin x hm)
      · refine ⟨a :: l1, e, l2, by rw [heq, List.cons_append], ?_, ?_⟩
        · intro x hx
          rcases List.mem_cons.mp hx with rfl | hm
          · exact le_of_lt (not_le.mp hae)
          · exact hmin x hm
        · intro x hx
          rcases List.mem_cons.mp hx with rfl | hm
          · exact not_le.mp hae
          · exact hstrict x hm

/-! ### Claim theorems -/

/-- C1: for every chain, the strike returned by `calculateMaxPain` is in
the set of distinct strikes present in either list and attains a pain
sum less than or equal to the pain sum at every other strike of that
set; in particular, for calls at strikes [640, 645, 650] with open
interest [100, 50, 30] and puts at the same strikes with open interest
[40, 60, 90], it returns 645. -/
theorem calculateMaxPain_minimizes (calls puts : List OptionContract)
    (h : buildStrikeMap calls puts ≠ []) :
    (calculateMaxPain calls puts ∈
        (buildStrikeMap calls puts).map StrikeEntry.strike ∧
      ∀ e ∈ buildStrikeMap calls puts,
        painAt (buildStrikeMap calls puts) (calculateMaxPain calls puts) ≤
          painAt (buildStrikeMap calls puts) e.strike) ∧
    calculateMaxPain exCalls exPuts = 645 := by
  refine ⟨?_, by
    norm_num [calculateMaxPain, buildStrikeMap, addCallOI, addPutOI, mpGo,
      painAt, painContrib, oiContract, exCalls, exPuts]⟩
  rcases hm : buildStrikeMap calls puts with _ | ⟨e, rest⟩
  · exact absurd hm h
  · have hcalc : calculateMaxPain calls puts =
        mpGo (painAt (e :: rest)) rest e.strike (some (painAt (e :: rest) e.strike)) := by
      simp only [calculateMaxPain, hm, mpGo]
    obtain ⟨hmem, hle, hall⟩ :=
      mpGo_spec (painAt (e :: rest)) rest e.strike (painAt (e :: rest) e.strike) rfl
    rw [hcalc]
    constructor
    · rcases hmem with h1 | ⟨e2, he2, h2⟩
      · rw [h1]
        exact List.mem_map_of_mem _ (List.mem_cons_self e rest)
      · rw [h2]
        exact List.mem_map_of_mem _ (List.mem_cons_of_mem e he2)
    · intro x hx
      rcases List.mem_cons.mp hx with rfl | hx2
      · exact hle
      · exact hall x hx2

/-- Witness for C1 at the end-to-end scenario chain. -/
theorem calculateMaxPain_minimizes_witness :
    calculateMaxPain exCalls exPuts ∈
        (buildStrikeMap exCalls exPuts).map StrikeEntry.strike ∧
      painAt (buildStrikeMap exCalls exPuts) (calculateMaxPain exCalls exPuts) ≤
        painAt (buildStrikeMap exCalls exPuts)
          (StrikeEntry.mk 645 50 60).strike := by
  have h := calculateMaxPain_minimizes exCalls exPuts (by
    norm_num [buildStrikeMap, addCallOI, addPutOI, oiContract, exCalls, exPuts]
    exact List.cons_ne_nil _ _)
  refine ⟨h.1.1, h.1.2 (StrikeEntry.mk 645 50 60) ?_⟩
  norm_num [buildStrikeMap, addCallOI, addPutOI, oiContract, exCalls, exPuts]

/-- Calls of the max-pain tie-break counterexample: the strike 650
appears first, 640 second, and both end up with equal pain. -/
def tieCalls : List OptionContract :=
  [oiContract CALL 650 5, oiContract CALL 640 5]

/-- Puts of the max-pain tie-break counterexample. -/
def tiePuts : List OptionContract :=
  [oiContract PUT 650 5]

/-- C5 counterexample: the strike set is {650, 640}, both strikes have
the same (minimal) pain sum, yet `calculateMaxPain` returns 650, not the
smallest minimizer 640: ties are broken by Map insertion order, not by
ascending strike order. -/
theorem calculateMaxPain_tie_counterexample :
    (buildStrikeMap tieCalls tiePuts).map StrikeEntry.strike = [650, 640] ∧
    painAt (buildStrikeMap tieCalls tiePuts) 640 =
      painAt (buildStrikeMap tieCalls tiePuts) 650 ∧
    calculateMaxPain tieCalls tiePuts = 650 ∧
    calculateMaxPain tieCalls tiePuts ≠ 640 := by
  refine ⟨?_, ?_, ?_, ?_⟩ <;>
    norm_num [calculateMaxPain, buildStrikeMap, addCallOI, addPutOI, mpGo,
      painAt, painContrib, oiContract, tieCalls, tiePuts]

/-- C5 amended: when several candidate strikes attain the same minimal
pain sum, `calculateMaxPain` returns the first-encountered strike in Map
insertion order (order of first appearance in the calls list, then the
puts list), which need not be the smallest strike: the returned strike
is minimal overall and strictly beats every entry placed before it in
the strike map. -/
theorem calculateMaxPain_first_in_map_order (calls puts : List OptionContract)
    (h : buildStrikeMap calls puts ≠ []) :
    ∃ l1 e l2, buildStrikeMap calls puts = l1 ++ e :: l2 ∧
      calculateMaxPain calls puts = e.strike ∧
      (∀ x ∈ buildStrikeMap calls puts,
        painAt (buildStrikeMap calls puts) e.strike ≤
          painAt (buildStrikeMap calls puts) x.strike) ∧
      (∀ x ∈ l1,
        painAt (buildStrikeMap calls puts) e.strike <
          painAt (buildStrikeMap calls puts) x.strike) := by
  obtain ⟨l1, e, l2, heq, hmin, hstrict⟩ :=
    exists_first_minimizer (painAt (buildStrikeMap calls puts))
      (buildStrikeMap calls puts) h
  refine ⟨l1, e, l2, heq, ?_, hmin, hstrict⟩
  have hcalc : calculateMaxPain calls puts =
      mpGo (painAt (buildStrikeMap calls puts)) (buildStrikeMap calls puts)
        0 none := by
    simp only [calculateMaxPain]
  rw [hcalc, heq]
  rw [heq] at hmin hstrict
  rcases l1 with _ | ⟨a, l1⟩
  · simp only [List.nil_append] at hmin ⊢
    simp only [mpGo]
    exact mpGo_of_no_improvement _ l2 e.strike _ fun x hx =>
      hmin x (List.mem_cons_of_mem e hx)
  · simp only [List.cons_append] at hmin hstrict ⊢
    simp only [mpGo]
    refine mpGo_first_improver _ l1 e l2 a.strike _ ?_ ?_ ?_
    · exact hstrict a (List.mem_cons_self a l1)
    · exact fun x hx => hstrict x (List.mem_cons_of_mem a hx)
    · exact fun x hx => hmin x (List.mem_cons_of_mem a
        (List.mem_append_right l1 (List.mem_cons_of_mem e hx)))

/-- Witness for the amended C5 at the tie counterexample chain. -/
theorem calculateMaxPain_first_in_map_order_witness :
    ∃ l1 e l2, buildStrikeMap tieCalls tiePuts = l1 ++ e :: l2 ∧
      calculateMaxPain tieCalls tiePuts = e.strike ∧
      (∀ x ∈ buildStrikeMap tieCalls tiePuts,
        painAt (buildStrikeMap tieCalls tiePuts) e.strike ≤
          painAt (buildStrikeMap tieCalls tiePuts) x.strike) ∧
      (∀ x ∈ l1,
        painAt (buildStrikeMap tieCalls tiePuts) e.strike <
          painAt (buildStrikeMap tieCalls tiePuts) x.strike) :=
  calculateMaxPain_first_in_map_order tieCalls tiePuts (by
    norm_num [buildStrikeMap, addCallOI, addPutOI, oiContract, tieCalls, tiePuts]
    exact List.cons_ne_nil _ _)

/-- C2: `checkNakedPosition` records an event iff volume > 0 and open
interest > 0 and volume > openInterest × threshold; no event when volume
or open interest is zero; an emitted event carries the ratio
volume / openInterest and the threshold in effect; the default threshold
is 1.5. -/
theorem checkNakedPosition_spec (threshold : ℚ) (contract : OptionContract) :
    ((checkNakedPosition threshold contract).isSome = true ↔
      0 < contract.totalVolume ∧ 0 < contract.openInterest ∧
        (contract.openInterest : ℚ) * threshold < (contract.totalVolume : ℚ)) ∧
    (∀ ev, checkNakedPosition threshold contract = some ev →
      ev.volumeOiRatio = (contract.totalVolume : ℚ) / (contract.openInterest : ℚ) ∧
      ev.thresholdMultiplier = threshold) ∧
    NAKED_THRESHOLD = 1.5 := by
  refine ⟨?_, ?_, by norm_num [NAKED_THRESHOLD]⟩
  · simp only [checkNakedPosition]
    split_ifs with h1 h2
    · simp only [Option.isSome_none, Bool.false_eq_true, false_iff, not_and]
      intro hv hoi
      rcases h1 with h | h <;> omega
    · simp only [Option.isSome_some, true_iff]
      push_neg at h1
      exact ⟨Nat.pos_of_ne_zero h1.1, Nat.pos_of_ne_zero h1.2, h2⟩
    · simp only [Option.isSome_none, Bool.false_eq_true, false_iff, not_and]
      intro _ _
      exact fun hgt => h2 hgt
  · intro ev hev
    simp only [checkNakedPosition] at hev
    split_ifs at hev
    rw [Option.some.injEq] at hev
    subst hev
    exact ⟨rfl, rfl⟩

/-- Contract of the C2 witness: volume 200, open interest 100. -/
def nakedExContract : OptionContract :=
  ⟨CALL, 640, 0, 0, 200, 100, 0⟩

/-- Event emitted for `nakedExContract` at the default threshold:
ratio 2.0, threshold 1.5. -/
def nakedExEvent : NakedPositionEvent :=
  ⟨640, 200, 100, 2, 3 / 2⟩

/-- Witness for C2: volume 200, OI 100, threshold 1.5 emits, with ratio
2 and the threshold recorded. -/
theorem checkNakedPosition_spec_witness :
    (checkNakedPosition NAKED_THRESHOLD nakedExContract).isSome = true ∧
    nakedExEvent.volumeOiRatio = (200 : ℚ) / 100 ∧
    nakedExEvent.thresholdMultiplier = NAKED_THRESHOLD := by
  refine ⟨?_, ?_⟩
  · exact (checkNakedPosition_spec NAKED_THRESHOLD nakedExContract).1.mpr
      ⟨by norm_num [nakedExContract], by norm_num [nakedExContract],
       by norm_num [nakedExContract, NAKED_THRESHOLD]⟩
  · have h := (checkNakedPosition_spec NAKED_THRESHOLD nakedExContract).2.1
      nakedExEvent (by
        norm_num [checkNakedPosition, nakedExContract, nakedExEvent,
          NAKED_THRESHOLD])
    simpa [nakedExContract] using h

/-- C10: the order-flow heuristic on a contract with zero open interest
returns ratio 0, no unusual-volume flag, and a NEUTRAL signal, whatever
the volume: the volume / open-interest division is guarded. -/
theorem analyzeOrderFlow_zero_oi (option : ATMOption)
    (h : option.contract.openInterest = 0) :
    (analyzeOrderFlow option).volumeOIRatio = 0 ∧
    (analyzeOrderFlow option).hasUnusualVolume = false ∧
    (analyzeOrderFlow option).signal = NEUTRAL := by
  simp only [analyzeOrderFlow, h]
  norm_num

/-- Witness for C10: a zero-open-interest call with volume 999 is
classified ratio 0, not unusual, NEUTRAL. -/
theorem analyzeOrderFlow_zero_oi_witness :
    (analyzeOrderFlow ⟨CALL, ⟨CALL, 640, 1, 1, 999, 0, 0⟩, 0, true⟩).volumeOIRatio = 0 ∧
    (analyzeOrderFlow ⟨CALL, ⟨CALL, 640, 1, 1, 999, 0, 0⟩, 0, true⟩).hasUnusualVolume = false ∧
    (analyzeOrderFlow ⟨CALL, ⟨CALL, 640, 1, 1, 999, 0, 0⟩, 0, true⟩).signal = NEUTRAL :=
  analyzeOrderFlow_zero_oi ⟨CALL, ⟨CALL, 640, 1, 1, 999, 0, 0⟩, 0, true⟩ rfl

/-- C9: the collector keeps the invariant `isRunning = true iff a timer
handle is held` under `start` and `stop`; `start` while running and
`stop` while stopped leave the state unchanged (both are total
functions, so neither throws); two consecutive `start` calls equal one,
leaving exactly one armed timer when starting from an idle state. -/
theorem collector_lifecycle (s : CollectorState) (t t1 t2 : ℕ)
    (hInv : CollectorInv s) :
    CollectorInv (DataCollector.start s t) ∧
    CollectorInv (DataCollector.stop s) ∧
    (s.isRunning = true → DataCollector.start s t = s) ∧
    (s.isRunning = false → DataCollector.stop s = s) ∧
    DataCollector.start (DataCollector.start s t1) t2 =
      DataCollector.start s t1 ∧
    (s.isRunning = false → s.activeTimers = [] →
      (DataCollector.start (DataCollector.start s t1) t2).activeTimers.length = 1) ∧
    DataCollector.stop (DataCollector.stop s) = DataCollector.stop s := by
  refine ⟨?_, ?_, ?_, ?_, ?_, ?_, ?_⟩
  · by_cases h : s.isRunning
    · simpa [DataCollector.start, h] using hInv
    · simp [DataCollector.start, h, CollectorInv]
  · rcases hr : s.isRunning with _ | _
    · simp [DataCollector.stop, hr]
      simpa [CollectorInv, hr] using hInv
    · have hid : s.intervalId ≠ none := hInv.mp hr
      simp [DataCollector.stop, hr, hid, CollectorInv]
  · intro h
    simp [DataCollector.start, h]
  · intro h
    simp [DataCollector.stop, h]
  · by_cases h : s.isRunning
    · simp [DataCollector.start, h]
    · simp [DataCollector.start, h]
  · intro h ht
    simp [DataCollector.start, h, ht]
  · by_cases h : s.isRunning
    · by_cases hid : s.intervalId = none
      · simp [DataCollector.stop, h, hid]
      · simp [DataCollector.stop, h, hid]
    · simp [DataCollector.stop, h]

/-- Witness for C9 at the freshly constructed collector state. -/
theorem collector_lifecycle_witness :
    CollectorInv (DataCollector.start CollectorState.initial 7) ∧
    CollectorInv (DataCollector.stop CollectorState.initial) ∧
    (CollectorState.initial.isRunning = true →
      DataCollector.start CollectorState.initial 7 = CollectorState.initial) ∧
    (CollectorState.initial.isRunning = false →
      DataCollector.stop CollectorState.initial = CollectorState.initial) ∧
    DataCollector.start (DataCollector.start CollectorState.initial 7) 8 =
      DataCollector.start CollectorState.initial 7 ∧
    (CollectorState.initial.isRunning = false →
      CollectorState.initial.activeTimers = [] →
      (DataCollector.start (DataCollector.start CollectorState.initial 7) 8).activeTimers.length = 1) ∧
    DataCollector.stop (DataCollector.stop CollectorState.initial) =
      DataCollector.stop CollectorState.initial :=
  collector_lifecycle CollectorState.initial 7 7 8 (by
    simp [CollectorInv, CollectorState.initial])

/-! ### Lemmas about the credit-spread enumeration -/

/-- In a strike-sorted list, the first component of every loop pair has
strike price at most the second component's. -/
lemma loopPairs_sorted_le {l : List OptionContract}
    (hs : List.Sorted strikeLE l) :
    ∀ p ∈ loopPairs l, strikeLE p.1 p.2 := by
  induction l with
  | nil => intro p hp; simp [loopPairs] at hp
  | cons x xs ih =>
    intro p hp
    rw [List.sorted_cons] at hs
    simp only [loopPairs, List.mem_append, List.mem_map] at hp
    rcases hp with ⟨y, hy, rfl⟩ | hp
    · exact hs.1 y hy
    · exact ih hs.2 p hp

/-- Every spread in the enumeration's output comes from a loop pair of
the strike-sorted, side-filtered option list. -/
lemma mem_calculateCreditSpreads {options : List OptionContract}
    {t : PutCall} {u : ℚ} {s : SpreadOpportunity}
    (h : s ∈ calculateCreditSpreads options t u) :
    ∃ p ∈ loopPairs (List.insertionSort strikeLE
        (options.filter (fun o => o.putCall = t))),
      mkSpread t p = some s := by
  simp only [calculateCreditSpreads, List.mem_insertionSort,
    List.mem_filterMap] at h
  exact h

/-- Inversion of the loop body: everything recorded in a surviving
spread, including the width and credit checks it passed. -/
lemma mkSpread_some_spec {t : PutCall} {p : OptionContract × OptionContract}
    {s : SpreadOpportunity} (h : mkSpread t p = some s) :
    s.spreadType = t ∧
    s.shortOption = (if t = CALL then p.1 else p.2) ∧
    s.longOption = (if t = CALL then p.2 else p.1) ∧
    s.shortStrike = s.shortOption.strikePrice ∧
    s.longStrike = s.longOption.strikePrice ∧
    s.width = |s.shortOption.strikePrice - s.longOption.strikePrice| ∧
    MIN_WIDTH ≤ s.width ∧ s.width ≤ MAX_WIDTH ∧
    s.creditReceived = s.shortOption.bid - s.longOption.ask ∧
    MIN_CREDIT ≤ s.creditReceived ∧
    s.maxProfit = s.creditReceived * 100 ∧
    s.maxLoss = (s.width - s.creditReceived) * 100 ∧
    s.breakEven = (if t = CALL then s.shortStrike + s.creditReceived
      else s.shortStrike - s.creditReceived) ∧
    s.riskRewardRatio = (if 0 < s.maxLoss then s.maxProfit / s.maxLoss else 0) := by
  cases t with
  | CALL =>
    simp only [mkSpread, reduceIte] at h
    split_ifs at h with h1 h2 h3
    · rw [Option.some.injEq] at h
      subst h
      push_neg at h1
      exact ⟨rfl, by norm_num, by norm_num, rfl, rfl, rfl, h1.1, h1.2, rfl,
        not_lt.mp h2, rfl, rfl, by norm_num, by rw [if_pos h3]⟩
    · rw [Option.some.injEq] at h
      subst h
      push_neg at h1
      exact ⟨rfl, by norm_num, by norm_num, rfl, rfl, rfl, h1.1, h1.2, rfl,
        not_lt.mp h2, rfl, rfl, by norm_num, by rw [if_neg h3]⟩
  | PUT =>
    have hpc : (PUT = CALL) = False := by simp
    simp only [mkSpread, hpc, ite_false] at h
    split_ifs at h with h1 h2 h3
    · rw [Option.some.injEq] at h
      subst h
      push_neg at h1
      exact ⟨rfl, by simp [hpc], by simp [hpc], rfl, rfl, rfl, h1.1, h1.2, rfl,
        not_lt.mp h2, rfl, rfl, by simp [hpc], by rw [if_pos h3]⟩
    · rw [Option.some.injEq] at h
      subst h
      push_neg at h1
      exact ⟨rfl, by simp [hpc], by simp [hpc], rfl, rfl, rfl, h1.1, h1.2, rfl,
        not_lt.mp h2, rfl, rfl, by simp [hpc], by rw [if_neg h3]⟩

/-- Short leg of the end-to-end C4 scenario: strike 650, bid 1.20. -/
def c4Short : OptionContract := ⟨CALL, 650, 6 / 5, 0, 0, 0, 0⟩

/-- Long leg of the end-to-end C4 scenario: strike 655, ask 0.60. -/
def c4Long : OptionContract := ⟨CALL, 655, 0, 3 / 5, 0, 0, 0⟩

/-- The two-contract chain of the end-to-end C4 scenario. -/
def c4Options : List OptionContract := [c4Short, c4Long]

/-- The single spread the C4 scenario produces. -/
def c4Spread : SpreadOpportunity :=
  ⟨CALL, 650, 655, c4Short, c4Long, 3 / 5, 60, 440, 3253 / 5, 3 / 22, 100, 0, 5⟩

/-- Short contract of the excluded-pair C3 scenario: bid 2.00. -/
def lowCreditShort : OptionContract := ⟨CALL, 650, 2, 0, 0, 0, 0⟩

/-- Long contract of the excluded-pair C3 scenario: ask 1.60, so the
credit is 0.40. -/
def lowCreditLong : OptionContract := ⟨CALL, 655, 0, 8 / 5, 0, 0, 0⟩

/-- The two-contract chain of the excluded-pair C3 scenario. -/
def lowCreditOptions : List OptionContract := [lowCreditShort, lowCreditLong]

/-- C3: every returned spread has width `|short strike − long strike|`
within [5, 50] and credit `short.bid − long.ask` of at least 0.50; the
pair with short bid 2.00 and long ask 1.60 (credit 0.40) is never
returned. -/
theorem calculateCreditSpreads_bounds (options : List OptionContract)
    (t : PutCall) (u : ℚ) :
    (∀ s ∈ calculateCreditSpreads options t u,
      s.width = |s.shortStrike - s.longStrike| ∧
      (5 : ℚ) ≤ s.width ∧ s.width ≤ 50 ∧
      s.creditReceived = s.shortOption.bid - s.longOption.ask ∧
      (0.50 : ℚ) ≤ s.creditReceived) ∧
    calculateCreditSpreads lowCreditOptions CALL 650 = [] := by
  constructor
  · intro s hs
    obtain ⟨p, _, hspread⟩ := mem_calculateCreditSpreads hs
    obtain ⟨-, -, -, hss, hls, hwidth, hmin, hmax, hcredit, hmincr, -⟩ :=
      mkSpread_some_spec hspread
    refine ⟨by rw [hwidth, hss, hls], ?_, ?_, hcredit, ?_⟩
    · simpa [MIN_WIDTH] using hmin
    · simpa [MAX_WIDTH] using hmax
    · have := hmincr
      rw [MIN_CREDIT] at this
      linarith
  · norm_num [calculateCreditSpreads, mkSpread, loopPairs, strikeLE, rrGE, List.filterMap_cons,
      MIN_WIDTH, MAX_WIDTH, MIN_CREDIT, lowCreditOptions, lowCreditShort,
      lowCreditLong]

/-- Witness for C3 at the C4 scenario spread. -/
theorem calculateCreditSpreads_bounds_witness :
    c4Spread.width = |c4Spread.shortStrike - c4Spread.longStrike| ∧
    (5 : ℚ) ≤ c4Spread.width ∧ c4Spread.width ≤ 50 ∧
    c4Spread.creditReceived = c4Spread.shortOption.bid - c4Spread.longOption.ask ∧
    (0.50 : ℚ) ≤ c4Spread.creditReceived :=
  (calculateCreditSpreads_bounds c4Options CALL 650).1 c4Spread (by
    norm_num [calculateCreditSpreads, mkSpread, loopPairs, strikeLE, rrGE, List.filterMap_cons,
      MIN_WIDTH, MAX_WIDTH, MIN_CREDIT, c4Options, c4Short, c4Long, c4Spread])

/-- C4: every returned spread has credit = short.bid − long.ask,
maxProfit = credit × 100, maxLoss = (width − credit) × 100, breakEven =
short strike ± credit by side, riskRewardRatio = maxProfit / maxLoss
when maxLoss > 0 and 0 otherwise; the CALL 650 (bid 1.20) / 655
(ask 0.60) scenario yields credit 0.60, width 5, maxProfit 60, maxLoss
440, breakEven 650.60. -/
theorem calculateCreditSpreads_economics (options : List OptionContract)
    (t : PutCall) (u : ℚ) :
    (∀ s ∈ calculateCreditSpreads options t u,
      s.creditReceived = s.shortOption.bid - s.longOption.ask ∧
      s.maxProfit = s.creditReceived * 100 ∧
      s.maxLoss = (s.width - s.creditReceived) * 100 ∧
      s.breakEven = (if s.spreadType = CALL then s.shortStrike + s.creditReceived
        else s.shortStrike - s.creditReceived) ∧
      s.riskRewardRatio = (if 0 < s.maxLoss then s.maxProfit / s.maxLoss else 0)) ∧
    (calculateCreditSpreads c4Options CALL 650 = [c4Spread] ∧
      c4Spread.creditReceived = 0.60 ∧ c4Spread.width = 5 ∧
      c4Spread.maxProfit = 60 ∧ c4Spread.maxLoss = 440 ∧
      c4Spread.breakEven = 650.60) := by
  constructor
  · intro s hs
    obtain ⟨p, _, hspread⟩ := mem_calculateCreditSpreads hs
    obtain ⟨htype, -, -, -, -, -, -, -, hcredit, -, hprofit, hloss, hbe, hrr⟩ :=
      mkSpread_some_spec hspread
    exact ⟨hcredit, hprofit, hloss, by rw [htype]; exact hbe, hrr⟩
  · refine ⟨?_, ?_, ?_, ?_, ?_, ?_⟩ <;>
      norm_num [calculateCreditSpreads, mkSpread, loopPairs, strikeLE, rrGE, List.filterMap_cons,
        MIN_WIDTH, MAX_WIDTH, MIN_CREDIT, c4Options, c4Short, c4Long, c4Spread]

/-- Witness for C4 at the C4 scenario spread. -/
theorem calculateCreditSpreads_economics_witness :
    c4Spread.creditReceived = c4Spread.shortOption.bid - c4Spread.longOption.ask ∧
    c4Spread.maxProfit = c4Spread.creditReceived * 100 ∧
    c4Spread.maxLoss = (c4Spread.width - c4Spread.creditReceived) * 100 ∧
    c4Spread.breakEven = (if c4Spread.spreadType = CALL then
      c4Spread.shortStrike + c4Spread.creditReceived
      else c4Spread.shortStrike - c4Spread.creditReceived) ∧
    c4Spread.riskRewardRatio = (if 0 < c4Spread.maxLoss then
      c4Spread.maxProfit / c4Spread.maxLoss else 0) :=
  (calculateCreditSpreads_economics c4Options CALL 650).1 c4Spread (by
    norm_num [calculateCreditSpreads, mkSpread, loopPairs, strikeLE, rrGE, List.filterMap_cons,
      MIN_WIDTH, MAX_WIDTH, MIN_CREDIT, c4Options, c4Short, c4Long, c4Spread])

/-- C6: the spread list is sorted non-increasing by risk/reward ratio:
every element is at least as large as everything after it. -/
theorem calculateCreditSpreads_sorted (options : List OptionContract)
    (t : PutCall) (u : ℚ) :
    (calculateCreditSpreads options t u).Sorted
      (fun a b => b.riskRewardRatio ≤ a.riskRewardRatio) :=
  List.sorted_insertionSort rrGE _

/-- C7: in every returned spread the strikes differ; CALL spreads sell
the lower strike, PUT spreads sell the higher strike. -/
theorem calculateCreditSpreads_leg_order (options : List OptionContract)
    (t : PutCall) (u : ℚ) :
    ∀ s ∈ calculateCreditSpreads options t u,
      s.shortStrike ≠ s.longStrike ∧
      (s.spreadType = CALL → s.shortStrike < s.longStrike) ∧
      (s.spreadType = PUT → s.longStrike < s.shortStrike) := by
  intro s hs
  obtain ⟨p, hp, hspread⟩ := mem_calculateCreditSpreads hs
  have hle : strikeLE p.1 p.2 :=
    loopPairs_sorted_le (List.sorted_insertionSort strikeLE _) p hp
  obtain ⟨htype, hshort, hlong, hss, hls, hwidth, hmin, -⟩ :=
    mkSpread_some_spec hspread
  have hne : s.shortOption.strikePrice ≠ s.longOption.strikePrice := by
    intro heq
    rw [hwidth, heq] at hmin
    norm_num [MIN_WIDTH] at hmin
  rw [hss, hls]
  cases t with
  | CALL =>
    simp only [reduceIte] at hshort hlong
    rw [hshort, hlong] at hne ⊢
    have hlt : p.1.strikePrice < p.2.strikePrice := lt_of_le_of_ne hle hne
    refine ⟨hne, fun _ => hlt, fun hput => ?_⟩
    rw [htype] at hput
    exact PutCall.noConfusion hput
  | PUT =>
    simp only [show (PUT = CALL) = False from by simp, ite_false] at hshort hlong
    rw [hshort, hlong] at hne ⊢
    have hlt : p.1.strikePrice < p.2.strikePrice :=
      lt_of_le_of_ne hle fun hsym => hne hsym.symm
    refine ⟨hne, fun hcall => ?_, fun _ => hlt⟩
    rw [htype] at hcall
    exact PutCall.noConfusion hcall

/-- Witness for C7 at the C4 scenario spread. -/
theorem calculateCreditSpreads_leg_order_witness :
    c4Spread.shortStrike ≠ c4Spread.longStrike ∧
    (c4Spread.spreadType = CALL → c4Spread.shortStrike < c4Spread.longStrike) ∧
    (c4Spread.spreadType = PUT → c4Spread.longStrike < c4Spread.shortStrike) :=
  calculateCreditSpreads_leg_order c4Options CALL 650 c4Spread (by
    norm_num [calculateCreditSpreads, mkSpread, loopPairs, strikeLE, rrGE, List.filterMap_cons,
      MIN_WIDTH, MAX_WIDTH, MIN_CREDIT, c4Options, c4Short, c4Long, c4Spread])

/-! ### Lemmas about the ATM selection -/

/-- Per-side specification of `findNearestStrikes`: at most 3 results,
every result records its true distance and is within 2% of spot, and
the results are sorted ascending by recorded distance. -/
lemma findNearestStrikes_spec (options : List OptionContract) (t : PutCall)
    (u : ℚ) :
    (findNearestStrikes options t u).length ≤ 3 ∧
    (∀ o ∈ findNearestStrikes options t u,
      o.distanceFromATM = |o.contract.strikePrice - u| ∧
      |o.contract.strikePrice - u| / u ≤ 2 / 100) ∧
    (findNearestStrikes options t u).Sorted distLE := by
  refine ⟨List.length_take_le 3 _, ?_, ?_⟩
  · intro o ho
    have ho2 := List.mem_of_mem_take ho
    rw [List.mem_insertionSort, List.mem_filter] at ho2
    obtain ⟨homem, hatm⟩ := ho2
    rw [List.mem_map] at homem
    obtain ⟨c, _, rfl⟩ := homem
    exact ⟨rfl, by simpa [ATM_THRESHOLD] using of_decide_eq_true hatm⟩
  · exact List.Pairwise.sublist (List.take_sublist 3 _)
      (List.sorted_insertionSort distLE _)

/-- C8: the ATM selection returns at most 3 contracts per side, every
returned contract is within 2% of spot, and each side is sorted
ascending by absolute distance from spot. -/
theorem findATMOptions_spec (calls puts : List OptionContract) (u : ℚ) :
    ((findATMOptions calls puts u).1.length ≤ 3 ∧
      (findATMOptions calls puts u).2.length ≤ 3) ∧
    (∀ o ∈ (findATMOptions calls puts u).1,
      |o.contract.strikePrice - u| / u ≤ 2 / 100) ∧
    (∀ o ∈ (findATMOptions calls puts u).2,
      |o.contract.strikePrice - u| / u ≤ 2 / 100) ∧
    (findATMOptions calls puts u).1.Sorted
      (fun a b => |a.contract.strikePrice - u| ≤ |b.contract.strikePrice - u|) ∧
    (findATMOptions calls puts u).2.Sorted
      (fun a b => |a.contract.strikePrice - u| ≤ |b.contract.strikePrice - u|) := by
  obtain ⟨hlen1, hmem1, hsort1⟩ := findNearestStrikes_spec calls CALL u
  obtain ⟨hlen2, hmem2, hsort2⟩ := findNearestStrikes_spec puts PUT u
  refine ⟨⟨hlen1, hlen2⟩, fun o ho => (hmem1 o ho).2, fun o ho => (hmem2 o ho).2,
    ?_, ?_⟩
  · refine List.Pairwise.imp_of_mem ?_ hsort1
    intro a b ha hb hab
    rw [← (hmem1 a ha).1, ← (hmem1 b hb).1]
    exact hab
  · refine List.Pairwise.imp_of_mem ?_ hsort2
    intro a b ha hb hab
    rw [← (hmem2 a ha).1, ← (hmem2 b hb).1]
    exact hab

/-- ATM-scenario call at the money: strike 100 with spot 100. -/
def atmCall100 : OptionContract := ⟨CALL, 100, 1, 1, 10, 10, 0⟩

/-- ATM-scenario call 3% out of range: strike 103 with spot 100. -/
def atmCall103 : OptionContract := ⟨CALL, 103, 1, 1, 10, 10, 0⟩

/-- ATM-scenario put within range: strike 101 with spot 100. -/
def atmPut101 : OptionContract := ⟨PUT, 101, 1, 1, 10, 10, 0⟩

/-- Witness for C8: with spot 100, the selected at-the-money call at
strike 100 is within 2% of spot, and the call side has at most 3
entries. -/
theorem findATMOptions_spec_witness :
    (findATMOptions [atmCall100, atmCall103] [atmPut101] 100).1.length ≤ 3 ∧
    |atmCall100.strikePrice - (100 : ℚ)| / 100 ≤ 2 / 100 := by
  have h := findATMOptions_spec [atmCall100, atmCall103] [atmPut101] 100
  refine ⟨h.1.1, ?_⟩
  have hm := h.2.1 ⟨CALL, atmCall100, 0, true⟩ (by
    norm_num [findATMOptions, findNearestStrikes, distLE, ATM_THRESHOLD,
      atmCall100, atmCall103, atmPut101])
  simpa using hm
